import Mathlib

/-!
# Verification of the request-dispatch and middleware-injection engine

Shallow embedding of the reflective dispatcher of the school-management-api
repository:

* `src/managers/api/Api.manager.js` — route-table construction (constructor),
  the per-request dispatcher `mw`, handler execution `_exec` and response
  normalization (the body of `onDone`);
* `src/managers/response_dispatcher/ResponseDispatcher.manager.js` — `dispatch`;
* the middleware pipeline executor (`VirtualStack`, the "Bolt") and the
  parameter introspector `getParamNames` are not part of the available
  sources; they are modelled from the specification (sections 4.1 and 4.3)
  and marked as such in their doc comments.

JavaScript values are embedded as `JsVal`; JS objects are ordered
association lists (JS object keys are unique and ordered, and all objects
handled by the engine are built that way).  JS spread semantics
(`{...a, ...b}`: later keys override, original key position kept) is
`spread`.  Fallible startup code (the route-table builder, which throws on
configuration errors) is embedded in `Except String`.
-/

set_option autoImplicit false

namespace SchoolApi

/-- An embedded JavaScript value.  `resObj` stands for the live HTTP
response object reference that the dispatcher merges into the handler
argument (`res`). -/
inductive JsVal where
  | str (s : String)
  | num (n : Int)
  | bool (b : Bool)
  | null
  | arr (xs : List JsVal)
  | obj (fields : List (String × JsVal))
  | resObj

/-- JavaScript truthiness for embedded values ("" , 0, false, null are
falsy; any array or object is truthy). -/
def truthy : JsVal → Bool
  | .str s => !(s == "")
  | .num n => !(n == 0)
  | .bool b => b
  | .null => false
  | .arr _ => true
  | .obj _ => true
  | .resObj => true

/-- Truthiness of a possibly-absent (`undefined`) value, as in
`if (x.field)`. -/
def jsTruthy : Option JsVal → Bool
  | some v => truthy v
  | none => false

@[simp] theorem jsTruthy_none : jsTruthy none = false := rfl

@[simp] theorem jsTruthy_some (v : JsVal) : jsTruthy (some v) = truthy v := rfl

/-- First-occurrence lookup in an ordered association list (a JS property
read: objects never hold duplicate keys, so the first hit is the value). -/
def assocFind {β : Type} (l : List (String × β)) (k : String) : Option β :=
  (l.find? (fun p => p.1 == k)).map (·.2)

/-- JS property write: replace the value at the first occurrence of the key
keeping its position, else append the key at the end (object insertion
order). -/
def setAssoc {β : Type} : List (String × β) → String → β → List (String × β)
  | [], k, v => [(k, v)]
  | (k1, v1) :: rest, k, v =>
    if k1 == k then (k, v) :: rest else (k1, v1) :: setAssoc rest k v

/-- The keys of an association list, in order. -/
def keysOf {β : Type} (l : List (String × β)) : List String :=
  l.map Prod.fst

/-- JS object spread `{...a, ...b}`: fold the writes of `b` over `a`. -/
def spread (a b : List (String × JsVal)) : List (String × JsVal) :=
  b.foldl (fun acc p => setAssoc acc p.1 p.2) a

/-- The enrichment map accumulated by a fully successful pipeline run whose
unit named `n` continued with value `f n`. -/
def boltResults (f : String → JsVal) (stack : List String) : List (String × JsVal) :=
  stack.foldl (fun acc n => setAssoc acc n (f n)) []

/-! ## Response envelope and dispatcher
`ResponseDispatcher.manager.js`, method `dispatch`. -/

/-- The wire envelope written by `ResponseDispatcher.dispatch`
(`res.status(statusCode).send(responseObj)`): `ok`, `code`, `data` and
`timestamp` are always present; `errors` and `message` only when set. -/
structure Envelope where
  ok : Bool
  code : JsVal
  data : JsVal
  timestamp : String
  errors : Option (List JsVal)
  message : Option JsVal

/-- The argument object of `dispatch(res, {ok, data, code, errors, message,
msg})`; `none` is an absent (`undefined`) property. -/
structure DispatchArgs where
  ok : Option Bool := none
  data : Option JsVal := none
  code : Option JsVal := none
  errors : Option JsVal := none
  message : Option JsVal := none
  msg : Option JsVal := none

/-- Error-normalization of one element of an `errors` array: a string
becomes `{message}`, anything else is passed through. -/
def normErrElem : JsVal → JsVal
  | .str s => .obj [("message", .str s)]
  | x => x

/-- `errorArray` of `dispatch`: a truthy string is wrapped, an array is
normalized element-wise, an object is wrapped in a one-element array;
any other (or falsy) value yields no errors. -/
def errorArrayOf : Option JsVal → List JsVal
  | none => []
  | some e =>
    if truthy e then
      match e with
      | .str s => [.obj [("message", .str s)]]
      | .arr xs => xs.map normErrElem
      | .obj fields => [.obj fields]
      | .resObj => [.resObj]
      | _ => []
    else []

/-- `ResponseDispatcher.dispatch` (src/managers/response_dispatcher), minus
the transport write: computes the envelope sent as the response body.
`now` stands for `new Date().toISOString()`. -/
def dispatch (now : String) (a : DispatchArgs) : Envelope :=
  let statusCode : JsVal :=
    match a.code with
    | some c => if truthy c then c else (if a.ok = some true then .num 200 else .num 400)
    | none => if a.ok = some true then .num 200 else .num 400
  let errorArray := errorArrayOf a.errors
  let finalMessage : Option JsVal :=
    if jsTruthy a.msg then a.msg
    else if jsTruthy a.message then a.message
    else if a.ok = some true then none else some (.str "Request failed")
  { ok := match a.ok with | some b => b | none => false
    code := statusCode
    data := match a.data with | some d => if truthy d then d else .obj [] | none => .obj []
    timestamp := now
    errors := if errorArray.isEmpty then none else some errorArray
    message := finalMessage }

/-! ## Middleware pipeline executor

`VirtualStack.manager.js` (the "Bolt") is not among the available sources;
the executor below is modelled from the specification. -/

/-- Modelled from the spec: the per-request behaviour of one middleware
unit (spec 4.3 / 6): it either continues with an enrichment value, writes
a terminal response itself (short-circuit), or raises. -/
inductive MwAction where
  | next (v : JsVal)
  | shortCircuit (e : Envelope)
  | raise

/-- Modelled from the spec: terminal state of one pipeline run
(spec 4.3): completed with accumulated results, short-circuited with the
response the unit wrote, or failed; `ran` records the units that executed,
in order. -/
inductive BoltOutcome where
  | completed (results : List (String × JsVal)) (ran : List String)
  | shortCircuited (e : Envelope) (ran : List String)
  | failed (ran : List String)

/-- Modelled from the spec: the pipeline executor (`VirtualStack` /
`createBolt(...).run()`, absent from the sources; spec 4.3): runs the
stack strictly in sequence; `next` stores the unit's result under the
unit's name and advances; a short-circuit or raise stops the run with no
further units. -/
def runBolt (behave : String → MwAction) :
    List String → List (String × JsVal) → List String → BoltOutcome
  | [], acc, ran => .completed acc ran
  | name :: rest, acc, ran =>
    match behave name with
    | .next v => runBolt behave rest (setAssoc acc name v) (ran ++ [name])
    | .shortCircuit e => .shortCircuited e (ran ++ [name])
    | .raise => .failed (ran ++ [name])

/-! ## Dispatcher (`Api.manager.js`)

`mw` is the per-request entry point; `_exec` wraps the handler call in the
try/catch; the response normalization is the body of `onDone`. -/

/-- Outcome of awaiting a handler: it returns a result object, or throws
(its promise rejects). -/
inductive ExecResult where
  | ok (result : List (String × JsVal))
  | threw

/-- `ApiHandler._exec`: awaits `targetModule[fnName](data)`; an exception
is caught and replaced by `{error: fnName + " failed to execute"}`
(`result` starts as `{}` and only gains the `error` key). -/
def _exec (handler : List (String × JsVal) → ExecResult) (fnName : String)
    (data : List (String × JsVal)) : List (String × JsVal) :=
  match handler data with
  | .ok r => r
  | .threw => [("error", .str (fnName ++ " failed to execute"))]

/-- The response-normalization part of `ApiHandler.mw`'s `onDone`: handler
results with `selfHandleResponse` produce no envelope; otherwise `errors`,
then `error`, then plain success are dispatched.  (`if (!result) result =
{}` cannot fire here: `_exec` always yields an object.) -/
def normalizeResult (now : String) (result : List (String × JsVal)) : Option Envelope :=
  if jsTruthy (assocFind result "selfHandleResponse") then none
  else if jsTruthy (assocFind result "errors") then
    some (dispatch now { ok := some false, code := assocFind result "code",
                         errors := assocFind result "errors" })
  else if jsTruthy (assocFind result "error") then
    some (dispatch now { ok := some false, code := assocFind result "code",
                         message := assocFind result "error" })
  else
    some (dispatch now { ok := some true, code := assocFind result "code",
                         data := some (.obj result) })

/-- The `onDone` continuation of `ApiHandler.mw`: merges `{...body,
...results, res}`, awaits the handler through `_exec`, and normalizes the
result.  Returns the (optional) envelope and the merged call argument. -/
def onDone (now : String) (handler : List (String × JsVal) → ExecResult)
    (fnName : String) (body results : List (String × JsVal)) :
    Option Envelope × List (String × JsVal) :=
  let data := spread (spread body results) [("res", JsVal.resObj)]
  let result := _exec handler fnName data
  (normalizeResult now result, data)

/-- The observable effects of one request through `ApiHandler.mw`:
envelopes written to the response, middleware units that executed (in
order), and the argument of each handler invocation. -/
structure Trace where
  responses : List Envelope
  mwsRun : List String
  handlerCalls : List (List (String × JsVal))

/-- An incoming HTTP request as `mw` reads it: `req.method`,
`req.params.moduleName`, `req.params.fnName`, `req.body`. -/
structure Request where
  method : String
  moduleName : String
  fnName : String
  body : List (String × JsVal)

/-- The dispatch argument `{ok: false, message: m}` used by `mw`'s three
routing-failure responses. -/
def failMessageArgs (m : String) : DispatchArgs :=
  { ok := some false, message := some (.str m) }

/-- `req.method.toLowerCase()`: character-wise lowercasing. -/
def jsToLowerCase (s : String) : String :=
  ⟨s.data.map Char.toLower⟩

/-- The route-table state `mw` consults: `this.methodMatrix` (module →
http verb → exposed function names) and `this.mwsStack` (route key →
middleware names). -/
structure BuildSt where
  methodMatrix : List (String × List (String × List String))
  mwsStack : List (String × List String)
deriving Repr, DecidableEq

/-- The `moduleName.methodName` key of the middleware-stack table. -/
def mwKey (moduleName fnName : String) : String :=
  moduleName ++ "." ++ fnName

/-- `ApiHandler.mw(req, res)` (src/managers/api/Api.manager.js): validate
module, verb and function before anything else runs; then run the route's
middleware stack through the executor; on completion invoke `onDone`.
`behave` gives each middleware unit's action for this request, `handler`
the target module method, `now` the dispatch timestamp. -/
def mw (st : BuildSt) (behave : String → MwAction)
    (handler : List (String × JsVal) → ExecResult) (now : String)
    (req : Request) : Trace :=
  let method := jsToLowerCase req.method
  match assocFind st.methodMatrix req.moduleName with
  | none =>
    { responses := [dispatch now (failMessageArgs ("module " ++ req.moduleName ++ " not found"))],
      mwsRun := [], handlerCalls := [] }
  | some moduleMatrix =>
    match assocFind moduleMatrix method with
    | none =>
      { responses := [dispatch now (failMessageArgs ("unsupported method " ++ method ++ " for " ++ req.moduleName))],
        mwsRun := [], handlerCalls := [] }
    | some fns =>
      if fns.contains req.fnName then
        let targetStack := (assocFind st.mwsStack (mwKey req.moduleName req.fnName)).getD []
        match runBolt behave targetStack [] [] with
        | .completed results ran =>
          let pair := onDone now handler req.fnName req.body results
          { responses := pair.1.toList, mwsRun := ran, handlerCalls := [pair.2] }
        | .shortCircuited e ran =>
          { responses := [e], mwsRun := ran, handlerCalls := [] }
        | .failed ran =>
          { responses := [], mwsRun := ran, handlerCalls := [] }
      else
        { responses := [dispatch now (failMessageArgs ("unable to find function " ++ req.fnName ++ " with method " ++ method))],
          mwsRun := [], handlerCalls := [] }

/-! ## Route-table builder (`ApiHandler` constructor, `Api.manager.js`)

The constructor scans every manager's `httpExposed` array, fills
`methodMatrix` and `mwsStack`, and throws on configuration errors.
Throwing is embedded as `Except.error`. -/

/-- One handler module as the builder sees it: `name` (its key in the
`managers` object), the optional `httpExposed` declaration list, and the
raw parameter-list source text of each method the module actually has
(the string `getParamNames` extracts from the function source). -/
structure Manager where
  name : String
  httpExposed : Option (List String)
  methodParams : List (String × String)
deriving Repr, DecidableEq

/-- JS `String.prototype.split` with a one-character separator (the only
separators the constructor uses are `=`, `,`). -/
def splitOnChar (c : Char) : List Char → List (List Char)
  | [] => [[]]
  | a :: rest =>
    let r := splitOnChar c rest
    if a = c then [] :: r
    else
      match r with
      | [] => [[a]]
      | h :: t => (a :: h) :: t

/-- `s.split(c)` as a list of strings. -/
def jsSplitChar (s : String) (c : Char) : List String :=
  (splitOnChar c s.data).map (fun l => ⟨l⟩)

/-- JS `String.prototype.trim`: drop whitespace on both ends. -/
def jsTrim (s : String) : String :=
  ⟨((s.data.dropWhile Char.isWhitespace).reverse.dropWhile Char.isWhitespace).reverse⟩

/-- JS `String.prototype.replace` with a one-character pattern and an
empty replacement: remove the first occurrence of the character. -/
def removeFirstChar (c : Char) : List Char → List Char
  | [] => []
  | a :: rest => if a = c then rest else a :: removeFirstChar c rest

/-- JS `String.prototype.startsWith`. -/
def listIsPrefixOf : List Char → List Char → Bool
  | [], _ => true
  | _ :: _, [] => false
  | a :: as, b :: bs => a == b && listIsPrefixOf as bs

/-- `s.startsWith(pat)`. -/
def jsStartsWith (s pat : String) : Bool :=
  listIsPrefixOf pat.data s.data

/-- Parsing of one exposure declaration: `"verb=methodName"`, with verb
defaulting to `"post"` when there is no `=` (`methodDef.split("=")`,
`parts[0]`/`parts[1]`). -/
def parseDef (d : String) : String × String :=
  match jsSplitChar d '=' with
  | verb :: name :: _ => (verb, name)
  | _ => ("post", d)

/-- Clean-up of one introspected parameter name, exactly as the
constructor does: `trim`, then drop the first `\x7b` and the first
`\x7d`. -/
def cleanParam (p : String) : String :=
  ⟨removeFirstChar '}' (removeFirstChar '{' (jsTrim p).data)⟩

/-- The constructor's parameter split: `params.split(",").map(cleanParam)`. -/
def cleanParams (pstr : String) : List String :=
  (jsSplitChar pstr ',').map cleanParam

/-- Modelled from the spec: `getParamNames`
(src/managers/api/_common/getParamNames.js is absent from the sources).
Per spec 4.1 it extracts the parameter-list source text of the handler
function, and signals a build-time configuration error when the function
cannot be introspected — in particular when `managers[moduleName]
[managerMethod]` is `undefined` because the exposed method does not exist
on the module. -/
def getParamNames (fnSource : Option String) (managerMethod moduleName : String) :
    Except String String :=
  match fnSource with
  | some s => .ok s
  | none => .error ("cannot introspect parameters of " ++ moduleName ++ "." ++ managerMethod)

/-- Left fold in `Except String`, used to thread the builder state through
the constructor's nested `forEach` loops; the first throw aborts the
build. -/
def exFold {α σ : Type} (f : σ → α → Except String σ) : σ → List α → Except String σ
  | s, [] => .ok s
  | s, a :: l =>
    match f s a with
    | .error e => .error e
    | .ok s2 => exFold f s2 l

/-- The body of the constructor's `params.forEach`: initialize the route's
stack entry if missing; a `__`-prefixed parameter must exist in `mwsRepo`
(else throw, naming the middleware and the route) and is pushed onto the
stack. -/
def stepParam (repo : List String) (moduleName managerMethod : String)
    (st : BuildSt) (param : String) : Except String BuildSt :=
  let key := mwKey moduleName managerMethod
  let stackTbl :=
    if (assocFind st.mwsStack key).isSome then st.mwsStack
    else setAssoc st.mwsStack key []
  if jsStartsWith param "__" then
    if repo.contains param then
      let pushed := setAssoc stackTbl key ((assocFind stackTbl key).getD [] ++ [param])
      .ok { st with mwsStack := pushed }
    else
      .error ("Unable to find middleware " ++ param ++ " for "
        ++ moduleName ++ "." ++ managerMethod)
  else
    .ok { st with mwsStack := stackTbl }

/-- The constructor's middleware-stack pass over one method's cleaned
parameter list. -/
def processParams (repo : List String) (moduleName managerMethod : String)
    (st : BuildSt) (params : List String) : Except String BuildSt :=
  exFold (stepParam repo moduleName managerMethod) st params

/-- `this.methodMatrix[moduleName][httpMethod].push(managerMethod)`
(with the inner array created when absent). -/
def pushMatrix (st : BuildSt) (moduleName httpMethod managerMethod : String) : BuildSt :=
  let mm := (assocFind st.methodMatrix moduleName).getD []
  let mm2 := setAssoc mm httpMethod ((assocFind mm httpMethod).getD [] ++ [managerMethod])
  { st with methodMatrix := setAssoc st.methodMatrix moduleName mm2 }

/-- Processing of one exposure declaration: parse verb and method name,
push the method into `methodMatrix[moduleName][httpMethod]`, introspect
the parameters, clean them, and build the middleware stack. -/
def processDef (repo : List String) (moduleName : String)
    (methodParams : List (String × String)) (st : BuildSt) (methodDef : String) :
    Except String BuildSt :=
  let httpMethod := (parseDef methodDef).1
  let managerMethod := (parseDef methodDef).2
  let st2 := pushMatrix st moduleName httpMethod managerMethod
  match getParamNames (assocFind methodParams managerMethod) managerMethod moduleName with
  | .error e => .error e
  | .ok pstr => processParams repo moduleName managerMethod st2 (cleanParams pstr)

/-- Processing of one manager: skipped when it has no `httpExposed`
property; otherwise `methodMatrix[moduleName] = \x7b\x7d` and every
declaration is processed in order. -/
def processManager (repo : List String) (st : BuildSt) (m : Manager) :
    Except String BuildSt :=
  match m.httpExposed with
  | none => .ok st
  | some defs =>
    let st := { st with methodMatrix := setAssoc st.methodMatrix m.name [] }
    exFold (processDef repo m.name m.methodParams) st defs

/-- The whole route-table construction of the `ApiHandler` constructor:
fold over all managers starting from empty tables. -/
def buildRoutes (managers : List Manager) (repo : List String) :
    Except String BuildSt :=
  exFold (processManager repo) { methodMatrix := [], mwsStack := [] } managers

/-- A plain-text serialization of the built tables (used to state the
byte-identical-on-rebuild property). -/
def serializeBuild (st : BuildSt) : String :=
  String.intercalate ";" (st.methodMatrix.map (fun p =>
    p.1 ++ ":" ++ String.intercalate "|" (p.2.map (fun q =>
      q.1 ++ "=" ++ String.intercalate "," q.2))))
  ++ "#" ++
  String.intercalate ";" (st.mwsStack.map (fun p =>
    p.1 ++ ":" ++ String.intercalate "," p.2))

/-! ### Builder lemmas -/

/-- The `moduleName.methodName` stack key written while processing one
exposure declaration. -/
def keyOfDef (moduleName : String) (d : String) : String :=
  mwKey moduleName (parseDef d).2

/-! ## Theorems -/

@[simp] theorem assocFind_nil {β : Type} (k : String) :
    assocFind ([] : List (String × β)) k = none := rfl

@[simp] theorem assocFind_cons {β : Type} (k1 : String) (v1 : β)
    (rest : List (String × β)) (k : String) :
    assocFind ((k1, v1) :: rest) k =
      (if k1 = k then some v1 else assocFind rest k) := by
  by_cases h : k1 = k
  · subst h; simp [assocFind, List.find?]
  · have hb : (k1 == k) = false := by simp [h]
    simp [assocFind, List.find?, hb, h]

@[simp] theorem setAssoc_nil {β : Type} (k : String) (v : β) :
    setAssoc [] k v = [(k, v)] := rfl

theorem setAssoc_cons {β : Type} (k1 : String) (v1 : β)
    (rest : List (String × β)) (k : String) (v : β) :
    setAssoc ((k1, v1) :: rest) k v =
      (if k1 = k then (k, v) :: rest else (k1, v1) :: setAssoc rest k v) := by
  by_cases h : k1 = k <;> simp [setAssoc, h]

@[simp] theorem assocFind_setAssoc_self {β : Type}
    (l : List (String × β)) (k : String) (v : β) :
    assocFind (setAssoc l k v) k = some v := by
  induction l with
  | nil => simp
  | cons p rest ih =>
    obtain ⟨k1, v1⟩ := p
    rw [setAssoc_cons]
    by_cases h : k1 = k <;> simp [h, ih]

theorem assocFind_setAssoc_ne {β : Type}
    (l : List (String × β)) (k k2 : String) (v : β) (h : k2 ≠ k) :
    assocFind (setAssoc l k v) k2 = assocFind l k2 := by
  induction l with
  | nil => simp [Ne.symm h]
  | cons p rest ih =>
    obtain ⟨k1, v1⟩ := p
    rw [setAssoc_cons]
    by_cases h1 : k1 = k
    · subst h1
      rw [if_pos rfl]
      simp [Ne.symm h]
    · rw [if_neg h1]
      simp [ih]

theorem mem_keysOf_setAssoc {β : Type}
    (l : List (String × β)) (k k2 : String) (v : β) :
    k2 ∈ keysOf (setAssoc l k v) ↔ k2 ∈ keysOf l ∨ k2 = k := by
  induction l with
  | nil => simp [keysOf]
  | cons p rest ih =>
    obtain ⟨k1, v1⟩ := p
    rw [setAssoc_cons]
    by_cases h1 : k1 = k
    · subst h1
      rw [if_pos rfl]
      simp only [keysOf, List.map_cons, List.mem_cons]
      tauto
    · rw [if_neg h1]
      simp only [keysOf, List.map_cons, List.mem_cons]
      simp only [keysOf] at ih
      rw [ih]
      tauto

theorem nodup_keysOf_setAssoc {β : Type}
    (l : List (String × β)) (k : String) (v : β)
    (h : (keysOf l).Nodup) : (keysOf (setAssoc l k v)).Nodup := by
  induction l with
  | nil => simp [keysOf]
  | cons p rest ih =>
    obtain ⟨k1, v1⟩ := p
    rw [setAssoc_cons]
    simp only [keysOf, List.map_cons, List.nodup_cons] at h
    by_cases h1 : k1 = k
    · subst h1
      rw [if_pos rfl]
      simp only [keysOf, List.map_cons, List.nodup_cons]
      exact h
    · rw [if_neg h1]
      simp only [keysOf, List.map_cons, List.nodup_cons]
      refine ⟨fun hmem => ?_, ih h.2⟩
      have hm := (mem_keysOf_setAssoc rest k k1 v).mp hmem
      rcases hm with hm | hm
      · exact h.1 hm
      · exact h1 hm

@[simp] theorem spread_nil (a : List (String × JsVal)) : spread a [] = a := rfl

theorem spread_cons (a : List (String × JsVal)) (k : String) (v : JsVal)
    (b : List (String × JsVal)) :
    spread a ((k, v) :: b) = spread (setAssoc a k v) b := rfl

theorem mem_keysOf_spread (a b : List (String × JsVal)) (k : String) :
    k ∈ keysOf (spread a b) ↔ k ∈ keysOf a ∨ k ∈ keysOf b := by
  induction b generalizing a with
  | nil => simp [keysOf]
  | cons p rest ih =>
    obtain ⟨k1, v1⟩ := p
    rw [spread_cons, ih, mem_keysOf_setAssoc]
    simp only [keysOf, List.map_cons, List.mem_cons]
    tauto

theorem assocFind_spread_not_mem (a b : List (String × JsVal)) (k : String)
    (h : k ∉ keysOf b) : assocFind (spread a b) k = assocFind a k := by
  induction b generalizing a with
  | nil => rfl
  | cons p rest ih =>
    obtain ⟨k1, v1⟩ := p
    simp only [keysOf, List.map_cons, List.mem_cons] at h
    push_neg at h
    rw [spread_cons, ih _ (by simpa [keysOf] using h.2),
        assocFind_setAssoc_ne _ _ _ _ h.1]

theorem assocFind_spread_mem (a b : List (String × JsVal)) (k : String) (v : JsVal)
    (hnd : (keysOf b).Nodup) (h : assocFind b k = some v) :
    assocFind (spread a b) k = some v := by
  induction b generalizing a with
  | nil => simp at h
  | cons p rest ih =>
    obtain ⟨k1, v1⟩ := p
    simp only [keysOf, List.map_cons, List.nodup_cons] at hnd
    rw [spread_cons]
    by_cases hk : k1 = k
    · subst hk
      simp only [assocFind_cons, if_pos rfl] at h
      cases h
      rw [assocFind_spread_not_mem _ _ _ (by simpa [keysOf] using hnd.1),
          assocFind_setAssoc_self]
    · simp only [assocFind_cons, if_neg hk] at h
      exact ih _ hnd.2 h

theorem foldl_setAssoc_find (f : String → JsVal) (stack : List String)
    (acc : List (String × JsVal)) (n : String) :
    assocFind (stack.foldl (fun a m => setAssoc a m (f m)) acc) n =
      (if n ∈ stack then some (f n) else assocFind acc n) := by
  induction stack generalizing acc with
  | nil => simp
  | cons s rest ih =>
    simp only [List.foldl_cons, List.mem_cons]
    rw [ih]
    by_cases hmem : n ∈ rest
    · simp [hmem]
    · by_cases hs : n = s
      · subst hs
        simp [hmem]
      · simp [hmem, hs, assocFind_setAssoc_ne _ _ _ _ hs]

theorem assocFind_boltResults (f : String → JsVal) (stack : List String)
    (n : String) (h : n ∈ stack) :
    assocFind (boltResults f stack) n = some (f n) := by
  rw [boltResults, foldl_setAssoc_find, if_pos h]

theorem foldl_setAssoc_keys (f : String → JsVal) (stack : List String)
    (acc : List (String × JsVal)) (k : String) :
    k ∈ keysOf (stack.foldl (fun a m => setAssoc a m (f m)) acc) ↔
      k ∈ keysOf acc ∨ k ∈ stack := by
  induction stack generalizing acc with
  | nil => simp
  | cons s rest ih =>
    simp only [List.foldl_cons, List.mem_cons]
    rw [ih, mem_keysOf_setAssoc]
    tauto

theorem mem_keysOf_boltResults (f : String → JsVal) (stack : List String)
    (k : String) : k ∈ keysOf (boltResults f stack) ↔ k ∈ stack := by
  rw [boltResults, foldl_setAssoc_keys]
  simp [keysOf]

theorem nodup_keysOf_boltResults (f : String → JsVal) (stack : List String) :
    (keysOf (boltResults f stack)).Nodup := by
  rw [boltResults]
  generalize hacc : ([] : List (String × JsVal)) = acc
  have hnd : (keysOf acc).Nodup := by simp [← hacc, keysOf]
  clear hacc
  induction stack generalizing acc with
  | nil => simpa using hnd
  | cons s rest ih =>
    simp only [List.foldl_cons]
    exact ih _ (nodup_keysOf_setAssoc _ _ _ hnd)

theorem runBolt_all_next (behave : String → MwAction) (f : String → JsVal)
    (stack : List String) (h : ∀ n ∈ stack, behave n = .next (f n)) :
    ∀ acc ran, runBolt behave stack acc ran =
      .completed (stack.foldl (fun a n => setAssoc a n (f n)) acc) (ran ++ stack) := by
  induction stack with
  | nil => intro acc ran; simp [runBolt]
  | cons s rest ih =>
    intro acc ran
    have hs : behave s = .next (f s) := h s (by simp)
    simp only [runBolt, hs, List.foldl_cons]
    rw [ih (fun n hn => h n (by simp [hn]))]
    simp

theorem runBolt_short (behave : String → MwAction) (f : String → JsVal)
    (pre : List String) (sc : String) (post : List String) (e : Envelope)
    (hpre : ∀ n ∈ pre, behave n = .next (f n))
    (hsc : behave sc = .shortCircuit e) :
    ∀ acc ran, runBolt behave (pre ++ sc :: post) acc ran =
      .shortCircuited e (ran ++ pre ++ [sc]) := by
  induction pre with
  | nil =>
    intro acc ran
    simp [runBolt, hsc]
  | cons s rest ih =>
    intro acc ran
    have hs : behave s = .next (f s) := hpre s (by simp)
    have hstep := ih (fun n hn => hpre n (by simp [hn])) (setAssoc acc s (f s)) (ran ++ [s])
    calc runBolt behave ((s :: rest) ++ sc :: post) acc ran
        = runBolt behave (rest ++ sc :: post) (setAssoc acc s (f s)) (ran ++ [s]) := by
          simp [runBolt, hs]
      _ = .shortCircuited e ((ran ++ [s]) ++ rest ++ [sc]) := hstep
      _ = .shortCircuited e (ran ++ (s :: rest) ++ [sc]) := by simp

/-! ## Auxiliary facts used by several claims -/

theorem append_ne_empty_right (x y : String) (hy : y.length ≠ 0) :
    x ++ y ≠ "" := by
  intro h
  have hlen : (x ++ y).length = 0 := by rw [h]; rfl
  rw [String.length_append] at hlen
  omega

theorem append_ne_empty_left (x y : String) (hx : x.length ≠ 0) :
    x ++ y ≠ "" := by
  intro h
  have hlen : (x ++ y).length = 0 := by rw [h]; rfl
  rw [String.length_append] at hlen
  omega

theorem truthy_str_of_ne (s : String) (h : s ≠ "") :
    truthy (.str s) = true := by
  simp [truthy, h]

/-- Evaluation of `dispatch` on the dispatcher's routing-failure argument
`{ok:false, message:m}` with a nonempty message. -/
theorem dispatch_failMessage (now m : String) (h : m ≠ "") :
    dispatch now (failMessageArgs m) =
      ⟨false, .num 400, .obj [], now, none, some (.str m)⟩ := by
  simp [dispatch, failMessageArgs, errorArrayOf, jsTruthy, truthy, h]

/-- Evaluation of the `onDone` normalization on the object `_exec`
produces when the handler throws. -/
theorem normalizeResult_error_only (now msg : String) (h : msg ≠ "") :
    normalizeResult now [("error", .str msg)] =
      some ⟨false, .num 400, .obj [], now, none, some (.str msg)⟩ := by
  have h1 : assocFind [("error", JsVal.str msg)] "selfHandleResponse" = none := rfl
  have h2 : assocFind [("error", JsVal.str msg)] "errors" = none := rfl
  have h3 : assocFind [("error", JsVal.str msg)] "error" = some (.str msg) := rfl
  have h4 : assocFind [("error", JsVal.str msg)] "code" = none := rfl
  simp [normalizeResult, h1, h2, h3, h4, dispatch, errorArrayOf, jsTruthy, truthy, h]

theorem exFold_ok_mem {α σ : Type} (f : σ → α → Except String σ) :
    ∀ (l : List α) (s out : σ), exFold f s l = .ok out →
      ∀ x ∈ l, ∃ s1 s2, f s1 x = .ok s2 := by
  intro l
  induction l with
  | nil => intro s out h x hx; simp at hx
  | cons a t ih =>
    intro s out h x hx
    simp only [exFold] at h
    cases hfa : f s a with
    | error e => rw [hfa] at h; cases h
    | ok s2 =>
      rw [hfa] at h
      rcases List.mem_cons.mp hx with hx | hx
      · exact ⟨s, s2, hx ▸ hfa⟩
      · exact ih s2 out h x hx

theorem exFold_append {α σ : Type} (f : σ → α → Except String σ) :
    ∀ (l1 l2 : List α) (s : σ), exFold f s (l1 ++ l2) =
      (match exFold f s l1 with
       | .error e => .error e
       | .ok s1 => exFold f s1 l2) := by
  intro l1
  induction l1 with
  | nil => intro l2 s; simp [exFold]
  | cons a t ih =>
    intro l2 s
    simp only [List.cons_append, exFold]
    cases hfa : f s a with
    | error e => simp
    | ok s2 => simp [ih]

theorem assocFind_stackInit (tbl : List (String × List String)) (k key : String)
    (hne : k ≠ key) :
    assocFind (if (assocFind tbl k).isSome then tbl else setAssoc tbl k []) key
      = assocFind tbl key := by
  by_cases hc : (assocFind tbl k).isSome
  · rw [if_pos hc]
  · rw [if_neg hc, assocFind_setAssoc_ne _ _ _ _ (Ne.symm hne)]

theorem assocFind_stackInit_self (tbl : List (String × List String)) (k : String) :
    assocFind (if (assocFind tbl k).isSome then tbl else setAssoc tbl k []) k
      = some ((assocFind tbl k).getD []) := by
  by_cases hc : (assocFind tbl k).isSome
  · rw [if_pos hc]
    obtain ⟨v, hv⟩ := Option.isSome_iff_exists.mp hc
    simp [hv]
  · rw [if_neg hc, assocFind_setAssoc_self]
    rw [Option.not_isSome_iff_eq_none.mp hc]
    rfl

theorem stepParam_ok_marker (repo : List String) (mn mm : String)
    (st st2 : BuildSt) (p : String) (h : stepParam repo mn mm st p = .ok st2)
    (hmark : jsStartsWith p "__" = true) : repo.contains p = true := by
  simp only [stepParam, hmark, if_true] at h
  by_cases hc : repo.contains p = true
  · exact hc
  · rw [if_neg hc] at h; cases h

theorem stepParam_error (repo : List String) (mn mm : String)
    (st : BuildSt) (p : String) (hmark : jsStartsWith p "__" = true)
    (hmiss : repo.contains p = false) :
    stepParam repo mn mm st p =
      .error ("Unable to find middleware " ++ p ++ " for " ++ mn ++ "." ++ mm) := by
  have hnc : ¬ (repo.contains p = true) := by
    intro hcc
    rw [hmiss] at hcc
    exact Bool.false_ne_true hcc
  simp only [stepParam]
  rw [if_pos hmark, if_neg hnc]

theorem stepParam_ok_exists (repo : List String) (mn mm : String)
    (st : BuildSt) (p : String)
    (hcond : jsStartsWith p "__" = true → repo.contains p = true) :
    ∃ s2, stepParam repo mn mm st p = .ok s2 := by
  cases h : stepParam repo mn mm st p with
  | ok s2 => exact ⟨s2, rfl⟩
  | error e =>
    exfalso
    simp only [stepParam] at h
    by_cases hmark : jsStartsWith p "__" = true
    · rw [if_pos hmark, if_pos (hcond hmark)] at h; cases h
    · rw [if_neg hmark] at h; cases h

theorem stepParam_content (repo : List String) (mn mm : String)
    (st st2 : BuildSt) (p : String) (h : stepParam repo mn mm st p = .ok st2) :
    assocFind st2.mwsStack (mwKey mn mm) =
      some ((assocFind st.mwsStack (mwKey mn mm)).getD []
        ++ (if jsStartsWith p "__" then [p] else [])) := by
  simp only [stepParam] at h
  by_cases hmark : jsStartsWith p "__" = true
  · rw [if_pos hmark] at h
    by_cases hc : repo.contains p = true
    · rw [if_pos hc] at h
      cases h
      simp only [if_pos hmark]
      rw [assocFind_setAssoc_self, assocFind_stackInit_self]
      simp
    · rw [if_neg hc] at h; cases h
  · rw [if_neg hmark] at h
    cases h
    simp only [if_neg hmark]
    rw [assocFind_stackInit_self]
    simp

theorem stepParam_frame (repo : List String) (mn mm : String)
    (st st2 : BuildSt) (p : String) (key : String)
    (hne : mwKey mn mm ≠ key) (h : stepParam repo mn mm st p = .ok st2) :
    assocFind st2.mwsStack key = assocFind st.mwsStack key := by
  simp only [stepParam] at h
  by_cases hmark : jsStartsWith p "__" = true
  · rw [if_pos hmark] at h
    by_cases hc : repo.contains p = true
    · rw [if_pos hc] at h
      cases h
      rw [assocFind_setAssoc_ne _ _ _ _ (Ne.symm hne), assocFind_stackInit _ _ _ hne]
    · rw [if_neg hc] at h; cases h
  · rw [if_neg hmark] at h
    cases h
    rw [assocFind_stackInit _ _ _ hne]

theorem processParams_frame (repo : List String) (mn mm : String) (key : String)
    (hne : mwKey mn mm ≠ key) :
    ∀ (params : List String) (st st2 : BuildSt),
      processParams repo mn mm st params = .ok st2 →
      assocFind st2.mwsStack key = assocFind st.mwsStack key := by
  intro params
  induction params with
  | nil => intro st st2 h; cases h; rfl
  | cons q rest ih =>
    intro st st2 h
    simp only [processParams, exFold] at h
    cases hq : stepParam repo mn mm st q with
    | error e => rw [hq] at h; cases h
    | ok s1 =>
      rw [hq] at h
      rw [ih s1 st2 h, stepParam_frame repo mn mm st s1 q key hne hq]

theorem processParams_content (repo : List String) (mn mm : String) :
    ∀ (params : List String) (st st2 : BuildSt), params ≠ [] →
      processParams repo mn mm st params = .ok st2 →
      assocFind st2.mwsStack (mwKey mn mm) =
        some ((assocFind st.mwsStack (mwKey mn mm)).getD []
          ++ params.filter (fun p => jsStartsWith p "__")) := by
  intro params
  induction params with
  | nil => intro st st2 hne _; exact absurd rfl hne
  | cons q rest ih =>
    intro st st2 _ h
    simp only [processParams, exFold] at h
    cases hq : stepParam repo mn mm st q with
    | error e => rw [hq] at h; cases h
    | ok s1 =>
      rw [hq] at h
      have hcq := stepParam_content repo mn mm st s1 q hq
      by_cases hrne : rest = []
      · subst hrne
        cases h
        rw [hcq]
        simp only [List.filter_cons]
        by_cases hmark : jsStartsWith q "__" = true <;> simp [hmark]
      · rw [ih s1 st2 hrne h, hcq]
        simp only [Option.getD_some, List.filter_cons]
        by_cases hmark : jsStartsWith q "__" = true <;> simp [hmark]

theorem processParams_ok_markers (repo : List String) (mn mm : String)
    (params : List String) (st st2 : BuildSt)
    (h : processParams repo mn mm st params = .ok st2) :
    ∀ p ∈ params, jsStartsWith p "__" = true → repo.contains p = true := by
  intro p hp hmark
  obtain ⟨s1, s2, hs⟩ := exFold_ok_mem _ params st st2 h p hp
  exact stepParam_ok_marker repo mn mm s1 s2 p hs hmark

theorem processParams_error_message (repo : List String) (mn mm : String) :
    ∀ (pre : List String) (p : String) (post : List String) (st : BuildSt),
      (∀ q ∈ pre, jsStartsWith q "__" = true → repo.contains q = true) →
      jsStartsWith p "__" = true → repo.contains p = false →
      processParams repo mn mm st (pre ++ p :: post) =
        .error ("Unable to find middleware " ++ p ++ " for " ++ mn ++ "." ++ mm) := by
  intro pre
  induction pre with
  | nil =>
    intro p post st _ hmark hmiss
    simp only [List.nil_append, processParams, exFold]
    rw [stepParam_error repo mn mm st p hmark hmiss]
  | cons q rest ih =>
    intro p post st hpre hmark hmiss
    obtain ⟨s1, hq⟩ := stepParam_ok_exists repo mn mm st q (hpre q (by simp))
    simp only [List.cons_append, processParams, exFold, hq]
    exact ih p post s1 (fun r hr => hpre r (by simp [hr])) hmark hmiss

theorem processDef_ok_elim (repo : List String) (mn : String)
    (mp : List (String × String)) (st st2 : BuildSt) (d : String)
    (h : processDef repo mn mp st d = .ok st2) :
    ∃ pstr stMid, assocFind mp (parseDef d).2 = some pstr
      ∧ stMid.mwsStack = st.mwsStack
      ∧ processParams repo mn (parseDef d).2 stMid (cleanParams pstr) = .ok st2 := by
  simp only [processDef] at h
  cases hmp : assocFind mp (parseDef d).2 with
  | none => rw [hmp] at h; simp only [getParamNames] at h; cases h
  | some pstr =>
    rw [hmp] at h
    simp only [getParamNames] at h
    exact ⟨pstr, pushMatrix st mn (parseDef d).1 (parseDef d).2, rfl, rfl, h⟩

theorem processDef_frame (repo : List String) (mn : String)
    (mp : List (String × String)) (st st2 : BuildSt) (d : String) (key : String)
    (hne : keyOfDef mn d ≠ key) (h : processDef repo mn mp st d = .ok st2) :
    assocFind st2.mwsStack key = assocFind st.mwsStack key := by
  obtain ⟨pstr, stMid, hmp, hstk, hpp⟩ := processDef_ok_elim repo mn mp st st2 d h
  rw [processParams_frame repo mn (parseDef d).2 key hne (cleanParams pstr) stMid st2 hpp,
    hstk]

theorem processDef_content (repo : List String) (mn : String)
    (mp : List (String × String)) (st st2 : BuildSt) (d : String) (pstr : String)
    (hmp : assocFind mp (parseDef d).2 = some pstr)
    (hne : cleanParams pstr ≠ [])
    (h : processDef repo mn mp st d = .ok st2) :
    assocFind st2.mwsStack (keyOfDef mn d) =
      some ((assocFind st.mwsStack (keyOfDef mn d)).getD []
        ++ (cleanParams pstr).filter (fun p => jsStartsWith p "__")) := by
  obtain ⟨pstr2, stMid, hmp2, hstk, hpp⟩ := processDef_ok_elim repo mn mp st st2 d h
  rw [hmp] at hmp2
  cases hmp2
  simp only [keyOfDef]
  rw [processParams_content repo mn (parseDef d).2 (cleanParams pstr) stMid st2 hne hpp,
    hstk]

theorem defs_frame (repo : List String) (mn : String)
    (mp : List (String × String)) (key : String) :
    ∀ (defs : List String) (st st2 : BuildSt),
      (∀ d ∈ defs, keyOfDef mn d ≠ key) →
      exFold (processDef repo mn mp) st defs = .ok st2 →
      assocFind st2.mwsStack key = assocFind st.mwsStack key := by
  intro defs
  induction defs with
  | nil => intro st st2 _ h; cases h; rfl
  | cons d rest ih =>
    intro st st2 hne h
    simp only [exFold] at h
    cases hd : processDef repo mn mp st d with
    | error e => rw [hd] at h; cases h
    | ok s1 =>
      rw [hd] at h
      rw [ih s1 st2 (fun r hr => hne r (by simp [hr])) h,
        processDef_frame repo mn mp st s1 d key (hne d (by simp)) hd]

theorem processManager_frame (repo : List String) (st st2 : BuildSt) (m : Manager)
    (key : String)
    (hno : ∀ defs, m.httpExposed = some defs → ∀ d ∈ defs, keyOfDef m.name d ≠ key)
    (h : processManager repo st m = .ok st2) :
    assocFind st2.mwsStack key = assocFind st.mwsStack key := by
  cases hexp : m.httpExposed with
  | none =>
    simp only [processManager, hexp] at h
    cases h; rfl
  | some defs =>
    simp only [processManager, hexp] at h
    have hfr := defs_frame repo m.name m.methodParams key defs
      { st with methodMatrix := setAssoc st.methodMatrix m.name [] } st2
      (hno defs hexp) h
    simpa using hfr

theorem managers_frame (repo : List String) (key : String) :
    ∀ (ms : List Manager) (st st2 : BuildSt),
      (∀ m ∈ ms, ∀ defs, m.httpExposed = some defs →
        ∀ d ∈ defs, keyOfDef m.name d ≠ key) →
      exFold (processManager repo) st ms = .ok st2 →
      assocFind st2.mwsStack key = assocFind st.mwsStack key := by
  intro ms
  induction ms with
  | nil => intro st st2 _ h; cases h; rfl
  | cons m rest ih =>
    intro st st2 hno h
    simp only [exFold] at h
    cases hm : processManager repo st m with
    | error e => rw [hm] at h; cases h
    | ok s1 =>
      rw [hm] at h
      rw [ih s1 st2 (fun r hr => hno r (by simp [hr])) h,
        processManager_frame repo st s1 m key (hno m (by simp)) hm]

/-- C1: a request whose `moduleName` is not a registered module is answered
with a failure envelope whose message is `module <moduleName> not found`;
a registered module with an unsupported verb, or a `fnName` not registered
under that verb, is answered with a descriptive failure envelope; in all
three cases no middleware unit runs and the handler is never invoked. -/
theorem c1_routing_failures (st : BuildSt) (behave : String → MwAction)
    (handler : List (String × JsVal) → ExecResult) (now : String) (req : Request) :
    (assocFind st.methodMatrix req.moduleName = none →
      mw st behave handler now req =
        ⟨[⟨false, .num 400, .obj [], now, none,
            some (.str ("module " ++ req.moduleName ++ " not found"))⟩], [], []⟩)
    ∧ (∀ moduleMatrix, assocFind st.methodMatrix req.moduleName = some moduleMatrix →
        assocFind moduleMatrix (jsToLowerCase req.method) = none →
        mw st behave handler now req =
          ⟨[⟨false, .num 400, .obj [], now, none,
              some (.str ("unsupported method " ++ jsToLowerCase req.method ++ " for " ++ req.moduleName))⟩], [], []⟩)
    ∧ (∀ moduleMatrix fns, assocFind st.methodMatrix req.moduleName = some moduleMatrix →
        assocFind moduleMatrix (jsToLowerCase req.method) = some fns →
        fns.contains req.fnName = false →
        mw st behave handler now req =
          ⟨[⟨false, .num 400, .obj [], now, none,
              some (.str ("unable to find function " ++ req.fnName ++ " with method " ++ jsToLowerCase req.method))⟩], [], []⟩) := by
  refine ⟨fun h => ?_, fun moduleMatrix hm hv => ?_, fun moduleMatrix fns hm hv hf => ?_⟩
  · simp only [mw, h]
    rw [dispatch_failMessage now _ (append_ne_empty_right _ " not found" (by decide))]
  · simp only [mw, hm, hv]
    rw [dispatch_failMessage now _ (append_ne_empty_left _ req.moduleName (by
      rw [String.length_append]
      have h5 : (" for ").length = 5 := rfl
      omega))]
  · simp only [mw, hm, hv, hf, Bool.false_eq_true, if_false]
    rw [dispatch_failMessage now _ (append_ne_empty_left _ (jsToLowerCase req.method) (by
      rw [String.length_append]
      have h5 : (" with method ").length = 13 := rfl
      omega))]

/-- C1 witness: concrete routing-failure requests against a table exposing
only `post user.login`, hitting each of the three checks. -/
theorem c1_routing_failures_witness :
    (mw ⟨[("user", [("post", ["login"])])], []⟩ (fun _ => .raise) (fun _ => .threw) "T"
        ⟨"POST", "ghost", "x", []⟩ =
      ⟨[⟨false, .num 400, .obj [], "T", none,
          some (.str "module ghost not found")⟩], [], []⟩)
    ∧ (mw ⟨[("user", [("post", ["login"])])], []⟩ (fun _ => .raise) (fun _ => .threw) "T"
        ⟨"GET", "user", "login", []⟩ =
      ⟨[⟨false, .num 400, .obj [], "T", none,
          some (.str "unsupported method get for user")⟩], [], []⟩)
    ∧ (mw ⟨[("user", [("post", ["login"])])], []⟩ (fun _ => .raise) (fun _ => .threw) "T"
        ⟨"POST", "user", "zap", []⟩ =
      ⟨[⟨false, .num 400, .obj [], "T", none,
          some (.str "unable to find function zap with method post")⟩], [], []⟩) := by
  refine ⟨?_, ?_, ?_⟩
  · exact (c1_routing_failures ⟨[("user", [("post", ["login"])])], []⟩
      (fun _ => .raise) (fun _ => .threw) "T" ⟨"POST", "ghost", "x", []⟩).1 rfl
  · exact ((c1_routing_failures ⟨[("user", [("post", ["login"])])], []⟩
      (fun _ => .raise) (fun _ => .threw) "T" ⟨"GET", "user", "login", []⟩).2.1
      [("post", ["login"])] rfl rfl)
  · exact ((c1_routing_failures ⟨[("user", [("post", ["login"])])], []⟩
      (fun _ => .raise) (fun _ => .threw) "T" ⟨"POST", "user", "zap", []⟩).2.2
      [("post", ["login"])] ["login"] rfl rfl rfl)

/-- C3: if a middleware unit short-circuits (writes the response itself),
no later unit in the stack runs, the `onDone` continuation and the handler
are never invoked, and the client receives exactly the response the
short-circuiting unit wrote.  (The pipeline executor is modelled from
spec 4.3; `VirtualStack.manager.js` is absent from the sources.) -/
theorem c3_short_circuit (st : BuildSt) (behave : String → MwAction)
    (handler : List (String × JsVal) → ExecResult) (now : String) (req : Request)
    (moduleMatrix : List (String × List String)) (fns : List String)
    (pre : List String) (sc : String) (post : List String) (e : Envelope)
    (f : String → JsVal)
    (hm : assocFind st.methodMatrix req.moduleName = some moduleMatrix)
    (hv : assocFind moduleMatrix (jsToLowerCase req.method) = some fns)
    (hf : fns.contains req.fnName = true)
    (hs : (assocFind st.mwsStack (mwKey req.moduleName req.fnName)).getD []
      = pre ++ sc :: post)
    (hpre : ∀ n ∈ pre, behave n = .next (f n))
    (hsc : behave sc = .shortCircuit e) :
    mw st behave handler now req =
      { responses := [e], mwsRun := pre ++ [sc], handlerCalls := [] } := by
  simp only [mw, hm, hv, hf, if_true, hs,
    runBolt_short behave f pre sc post e hpre hsc [] [], List.nil_append]

/-- C3 witness: `__B` short-circuits with a 401 envelope; `__C` never runs
and the handler is not called. -/
theorem c3_short_circuit_witness :
    mw ⟨[("m", [("post", ["f"])])], [("m.f", ["__A", "__B", "__C"])]⟩
      (fun n => if n = "__B"
        then .shortCircuit ⟨false, .num 401, .obj [], "T", none, none⟩
        else .next .null)
      (fun _ => .ok []) "T" ⟨"POST", "m", "f", []⟩ =
      { responses := [⟨false, .num 401, .obj [], "T", none, none⟩],
        mwsRun := ["__A", "__B"], handlerCalls := [] } := by
  exact c3_short_circuit ⟨[("m", [("post", ["f"])])], [("m.f", ["__A", "__B", "__C"])]⟩
    (fun n => if n = "__B"
      then .shortCircuit ⟨false, .num 401, .obj [], "T", none, none⟩
      else .next .null)
    (fun _ => .ok []) "T" ⟨"POST", "m", "f", []⟩
    [("post", ["f"])] ["f"] ["__A"] "__B" ["__C"]
    ⟨false, .num 401, .obj [], "T", none, none⟩ (fun _ => .null)
    rfl rfl rfl rfl
    (by intro n hn; simp at hn; simp [hn])
    (by simp)

/-- C10: whenever the middleware pipeline completes, the merged handler
argument binds the key `res` to the live HTTP response object — even when
the request body (or an enrichment) already carries a `res` field, it is
overwritten before the handler sees it. -/
theorem c10_res_binding (st : BuildSt) (behave : String → MwAction)
    (handler : List (String × JsVal) → ExecResult) (now : String) (req : Request)
    (moduleMatrix : List (String × List String)) (fns : List String)
    (stack : List String) (f : String → JsVal)
    (hm : assocFind st.methodMatrix req.moduleName = some moduleMatrix)
    (hv : assocFind moduleMatrix (jsToLowerCase req.method) = some fns)
    (hf : fns.contains req.fnName = true)
    (hs : (assocFind st.mwsStack (mwKey req.moduleName req.fnName)).getD [] = stack)
    (hnext : ∀ n ∈ stack, behave n = .next (f n)) :
    (mw st behave handler now req).handlerCalls =
      [spread (spread req.body (boltResults f stack)) [("res", JsVal.resObj)]]
    ∧ assocFind (spread (spread req.body (boltResults f stack)) [("res", JsVal.resObj)]) "res"
      = some JsVal.resObj := by
  refine ⟨?_, ?_⟩
  · simp only [mw, hm, hv, hf, if_true, hs,
      runBolt_all_next behave f stack hnext [] [], List.nil_append]
    rfl
  · have hsingle : spread (spread req.body (boltResults f stack)) [("res", JsVal.resObj)]
        = setAssoc (spread req.body (boltResults f stack)) "res" JsVal.resObj := rfl
    rw [hsingle, assocFind_setAssoc_self]

/-- C10 witness: the body field `res: 0` is overwritten by the response
object. -/
theorem c10_res_binding_witness :
    (mw ⟨[("m", [("post", ["f"])])], [("m.f", [])]⟩ (fun _ => .raise)
      (fun _ => .ok []) "T" ⟨"POST", "m", "f", [("res", .num 0)]⟩).handlerCalls =
      [[("res", JsVal.resObj)]]
    ∧ assocFind (spread (spread [("res", JsVal.num 0)] (boltResults (fun _ => .null) []))
        [("res", JsVal.resObj)]) "res" = some JsVal.resObj := by
  obtain ⟨h1, h2⟩ := c10_res_binding ⟨[("m", [("post", ["f"])])], [("m.f", [])]⟩
    (fun _ => .raise) (fun _ => .ok []) "T" ⟨"POST", "m", "f", [("res", .num 0)]⟩
    [("post", ["f"])] ["f"] [] (fun _ => .null)
    rfl rfl rfl rfl (by intro n hn; simp at hn)
  exact ⟨h1, h2⟩

/-- C5 counterexample: the handler result `{errors:["x"]}` does not yield
exactly `{ok:false, code:400, errors:[{message:"x"}], timestamp}` — the
envelope the code produces additionally carries `data: {}` and
`message: "Request failed"`. -/
theorem c5_counterexample_extra_fields :
    normalizeResult "T" [("errors", JsVal.arr [.str "x"])] =
      some ⟨false, .num 400, .obj [], "T",
        some [.obj [("message", .str "x")]], some (.str "Request failed")⟩
    ∧ (⟨false, .num 400, .obj [], "T",
        some [.obj [("message", .str "x")]],
        some (.str "Request failed")⟩ : Envelope).message ≠ none :=
  ⟨rfl, by simp⟩

/-- C5 (amended): the normalization precedence is as claimed
(`selfHandleResponse`, then `errors`, then `error`, then success, with
`code` defaulting to 400 or 200), but every dispatched envelope also
carries a `data` field (defaulting to `{}`) and failure envelopes without
an explicit message carry `message: "Request failed"`; so `{errors:["x"]}`
yields `{ok:false, code:400, errors:[{message:"x"}], data:{},
message:"Request failed", timestamp}` and a plain success result yields
`{ok:true, code:200, data, timestamp}`. -/
theorem c5_amended_normalization (now : String) (result : List (String × JsVal)) :
    (jsTruthy (assocFind result "selfHandleResponse") = true →
      normalizeResult now result = none)
    ∧ (jsTruthy (assocFind result "selfHandleResponse") = false →
      ∀ es, assocFind result "errors" = some (.arr es) →
      assocFind result "code" = none →
      normalizeResult now result =
        some ⟨false, .num 400, .obj [], now,
          (if (es.map normErrElem).isEmpty then none else some (es.map normErrElem)),
          some (.str "Request failed")⟩)
    ∧ (jsTruthy (assocFind result "selfHandleResponse") = false →
      jsTruthy (assocFind result "errors") = false →
      ∀ s, assocFind result "error" = some (.str s) → s ≠ "" →
      assocFind result "code" = none →
      normalizeResult now result =
        some ⟨false, .num 400, .obj [], now, none, some (.str s)⟩)
    ∧ (jsTruthy (assocFind result "selfHandleResponse") = false →
      jsTruthy (assocFind result "errors") = false →
      jsTruthy (assocFind result "error") = false →
      assocFind result "code" = none →
      normalizeResult now result =
        some ⟨true, .num 200, .obj result, now, none, none⟩)
    ∧ (jsTruthy (assocFind result "selfHandleResponse") = false →
      jsTruthy (assocFind result "errors") = false →
      jsTruthy (assocFind result "error") = false →
      ∀ n : Int, assocFind result "code" = some (.num n) → n ≠ 0 →
      normalizeResult now result =
        some ⟨true, .num n, .obj result, now, none, none⟩)
    ∧ (jsTruthy (assocFind result "selfHandleResponse") = false →
      ∀ es, assocFind result "errors" = some (.arr es) →
      ∀ n : Int, assocFind result "code" = some (.num n) → n ≠ 0 →
      normalizeResult now result =
        some ⟨false, .num n, .obj [], now,
          (if (es.map normErrElem).isEmpty then none else some (es.map normErrElem)),
          some (.str "Request failed")⟩)
    ∧ (jsTruthy (assocFind result "selfHandleResponse") = false →
      jsTruthy (assocFind result "errors") = false →
      ∀ s, assocFind result "error" = some (.str s) → s ≠ "" →
      ∀ n : Int, assocFind result "code" = some (.num n) → n ≠ 0 →
      normalizeResult now result =
        some ⟨false, .num n, .obj [], now, none, some (.str s)⟩) := by
  refine ⟨fun hsh => ?_, fun hsh es herr hcode => ?_, fun hsh herr s hs hne hcode => ?_,
    fun hsh herr he hcode => ?_, fun hsh herr he n hcode hn => ?_,
    fun hsh es herr n hcode hn => ?_, fun hsh herr s hs hne n hcode hn => ?_⟩
  · rw [normalizeResult, if_pos hsh]
  · have htr : jsTruthy (assocFind result "errors") = true := by
      rw [herr]; rfl
    rw [normalizeResult, if_neg (by simp [hsh]), if_pos (by simp [htr]),
      hcode, herr]
    simp [dispatch, errorArrayOf, truthy]
  · have htr : jsTruthy (assocFind result "error") = true := by
      rw [hs]; simp [truthy, hne]
    have ht2 : truthy (.str s) = true := by simp [truthy, hne]
    rw [normalizeResult, if_neg (by simp [hsh]), if_neg (by simp [herr]),
      if_pos (by simp [htr]), hcode, hs]
    simp [dispatch, errorArrayOf, ht2]
  · rw [normalizeResult, if_neg (by simp [hsh]), if_neg (by simp [herr]),
      if_neg (by simp [he])]
    simp [dispatch, hcode, errorArrayOf, truthy]
  · rw [normalizeResult, if_neg (by simp [hsh]), if_neg (by simp [herr]),
      if_neg (by simp [he])]
    simp [dispatch, hcode, hn, errorArrayOf, truthy]
  · have htr : jsTruthy (assocFind result "errors") = true := by
      rw [herr]; rfl
    rw [normalizeResult, if_neg (by simp [hsh]), if_pos (by simp [htr]),
      hcode, herr]
    simp [dispatch, errorArrayOf, truthy, hn]
  · have htr : jsTruthy (assocFind result "error") = true := by
      rw [hs]; simp [truthy, hne]
    have ht2 : truthy (.str s) = true := by simp [truthy, hne]
    have ht3 : truthy (.num n) = true := by simp [truthy, hn]
    rw [normalizeResult, if_neg (by simp [hsh]), if_neg (by simp [herr]),
      if_pos (by simp [htr]), hcode, hs]
    simp [dispatch, errorArrayOf, ht2, ht3]

/-- C5 witness: the two concrete round-trips of the claim, `{errors:["x"]}`
and the plain success result `{ping:"pong"}`, plus explicit codes on
success (`201`), on an errors result (`422`) and on a singular error
result (`500`). -/
theorem c5_amended_normalization_witness :
    normalizeResult "T" [("errors", JsVal.arr [.str "x"])] =
      some ⟨false, .num 400, .obj [], "T",
        some [.obj [("message", .str "x")]], some (.str "Request failed")⟩
    ∧ normalizeResult "T" [("ping", JsVal.str "pong")] =
      some ⟨true, .num 200, .obj [("ping", JsVal.str "pong")], "T", none, none⟩
    ∧ normalizeResult "T" [("selfHandleResponse", JsVal.bool true)] = none
    ∧ normalizeResult "T" [("done", JsVal.bool true), ("code", JsVal.num 201)] =
      some ⟨true, .num 201, .obj [("done", JsVal.bool true), ("code", JsVal.num 201)],
        "T", none, none⟩
    ∧ normalizeResult "T" [("errors", JsVal.arr [.str "x"]), ("code", JsVal.num 422)] =
      some ⟨false, .num 422, .obj [], "T",
        some [.obj [("message", .str "x")]], some (.str "Request failed")⟩
    ∧ normalizeResult "T" [("error", JsVal.str "boom"), ("code", JsVal.num 500)] =
      some ⟨false, .num 500, .obj [], "T", none, some (.str "boom")⟩ := by
  refine ⟨?_, ?_, ?_, ?_, ?_, ?_⟩
  · exact (c5_amended_normalization "T" [("errors", JsVal.arr [.str "x"])]).2.1
      rfl [.str "x"] rfl rfl
  · exact (c5_amended_normalization "T" [("ping", JsVal.str "pong")]).2.2.2.1
      rfl rfl rfl rfl
  · exact (c5_amended_normalization "T" [("selfHandleResponse", JsVal.bool true)]).1 rfl
  · exact (c5_amended_normalization "T"
      [("done", JsVal.bool true), ("code", JsVal.num 201)]).2.2.2.2.1
      rfl rfl rfl 201 rfl (by decide)
  · exact (c5_amended_normalization "T"
      [("errors", JsVal.arr [.str "x"]), ("code", JsVal.num 422)]).2.2.2.2.2.1
      rfl [.str "x"] rfl 422 rfl (by decide)
  · exact (c5_amended_normalization "T"
      [("error", JsVal.str "boom"), ("code", JsVal.num 500)]).2.2.2.2.2.2
      rfl rfl "boom" rfl (by decide) 500 rfl (by decide)

/-- C8: when the route resolves, the pipeline completes, and the handler
throws (its promise rejects), the exception is caught at the dispatch
boundary and the client receives exactly one failure envelope whose
message is `<fnName> failed to execute`, with no further detail (`mw` is a
total function: every such request yields exactly this response list). -/
theorem c8_handler_exception (st : BuildSt) (behave : String → MwAction)
    (handler : List (String × JsVal) → ExecResult) (now : String) (req : Request)
    (moduleMatrix : List (String × List String)) (fns : List String)
    (stack : List String) (f : String → JsVal)
    (hm : assocFind st.methodMatrix req.moduleName = some moduleMatrix)
    (hv : assocFind moduleMatrix (jsToLowerCase req.method) = some fns)
    (hf : fns.contains req.fnName = true)
    (hs : (assocFind st.mwsStack (mwKey req.moduleName req.fnName)).getD [] = stack)
    (hnext : ∀ n ∈ stack, behave n = .next (f n))
    (hthrew : ∀ data, handler data = .threw) :
    (mw st behave handler now req).responses =
      [⟨false, .num 400, .obj [], now, none,
        some (.str (req.fnName ++ " failed to execute"))⟩] := by
  simp only [mw, hm, hv, hf, if_true, hs,
    runBolt_all_next behave f stack hnext [] []]
  simp only [onDone, _exec, hthrew]
  rw [normalizeResult_error_only now _
    (append_ne_empty_right _ " failed to execute" (by decide))]
  rfl

/-- C2 counterexample: for a route with middleware stack
`[__A, __B, __C]`, body `{x: 1}` and all units succeeding, the single
handler-call argument has key list `[x, __A, __B, __C, res]` — the extra
key `res` is neither a body field nor an enrichment key, refuting "no
other keys". -/
theorem c2_counterexample_res_key :
    ((mw ⟨[("m", [("post", ["f"])])], [("m.f", ["__A", "__B", "__C"])]⟩
        (fun n => .next (.str n)) (fun _ => .ok []) "T"
        ⟨"POST", "m", "f", [("x", .num 1)]⟩).handlerCalls.map keysOf
      = [["x", "__A", "__B", "__C", "res"]])
    ∧ "res" ∉ (["x"] : List String)
    ∧ "res" ∉ (["__A", "__B", "__C"] : List String) :=
  ⟨rfl, by decide, by decide⟩

/-- C2 (amended): for every request resolving to a route whose whole
middleware stack succeeds, the handler is invoked exactly once, after the
whole stack has run in order, and its single argument is
`{...body, ...results, res}`: its keys are exactly the body keys, the
stack's enrichment keys, and `res`; enrichment values override body fields
of the same name. -/
theorem c2_amended_pipeline_merge (st : BuildSt) (behave : String → MwAction)
    (handler : List (String × JsVal) → ExecResult) (now : String) (req : Request)
    (moduleMatrix : List (String × List String)) (fns : List String)
    (stack : List String) (f : String → JsVal)
    (hm : assocFind st.methodMatrix req.moduleName = some moduleMatrix)
    (hv : assocFind moduleMatrix (jsToLowerCase req.method) = some fns)
    (hf : fns.contains req.fnName = true)
    (hs : (assocFind st.mwsStack (mwKey req.moduleName req.fnName)).getD [] = stack)
    (hnext : ∀ n ∈ stack, behave n = .next (f n)) :
    (mw st behave handler now req).mwsRun = stack
    ∧ (mw st behave handler now req).handlerCalls =
        [spread (spread req.body (boltResults f stack)) [("res", JsVal.resObj)]]
    ∧ (∀ k, k ∈ keysOf (spread (spread req.body (boltResults f stack)) [("res", JsVal.resObj)])
        ↔ (k ∈ keysOf req.body ∨ k ∈ stack ∨ k = "res"))
    ∧ (∀ n ∈ stack, n ≠ "res" →
        assocFind (spread (spread req.body (boltResults f stack)) [("res", JsVal.resObj)]) n
          = some (f n)) := by
  refine ⟨?_, ?_, ?_, ?_⟩
  · simp only [mw, hm, hv, hf, if_true, hs,
      runBolt_all_next behave f stack hnext [] [], List.nil_append]
  · simp only [mw, hm, hv, hf, if_true, hs,
      runBolt_all_next behave f stack hnext [] [], List.nil_append]
    rfl
  · intro k
    rw [mem_keysOf_spread, mem_keysOf_spread, mem_keysOf_boltResults]
    constructor
    · intro h
      rcases h with (h | h) | h
      · exact Or.inl h
      · exact Or.inr (Or.inl h)
      · exact Or.inr (Or.inr (by simpa [keysOf] using h))
    · intro h
      rcases h with h | h | h
      · exact Or.inl (Or.inl h)
      · exact Or.inl (Or.inr h)
      · exact Or.inr (by simp [keysOf, h])
  · intro n hn hne
    have hsingle : spread (spread req.body (boltResults f stack)) [("res", JsVal.resObj)]
        = setAssoc (spread req.body (boltResults f stack)) "res" JsVal.resObj := rfl
    rw [hsingle, assocFind_setAssoc_ne _ _ _ _ hne,
      assocFind_spread_mem _ _ _ _ (nodup_keysOf_boltResults f stack)
        (assocFind_boltResults f stack n hn)]

/-- C2 witness: concrete run with stack `[__A, __B, __C]` and a body field
`__B` that the middleware result overrides. -/
theorem c2_amended_pipeline_merge_witness :
    (mw ⟨[("m", [("post", ["f"])])], [("m.f", ["__A", "__B", "__C"])]⟩
        (fun n => .next (.str ("v" ++ n))) (fun _ => .ok []) "T"
        ⟨"POST", "m", "f", [("x", .num 1), ("__B", .str "body")]⟩).mwsRun
      = ["__A", "__B", "__C"]
    ∧ (mw ⟨[("m", [("post", ["f"])])], [("m.f", ["__A", "__B", "__C"])]⟩
        (fun n => .next (.str ("v" ++ n))) (fun _ => .ok []) "T"
        ⟨"POST", "m", "f", [("x", .num 1), ("__B", .str "body")]⟩).handlerCalls.map keysOf
      = [["x", "__B", "__A", "__C", "res"]]
    ∧ assocFind (spread (spread [("x", JsVal.num 1), ("__B", JsVal.str "body")]
        (boltResults (fun n => .str ("v" ++ n)) ["__A", "__B", "__C"]))
        [("res", JsVal.resObj)]) "__B" = some (.str "v__B") := by
  obtain ⟨h1, h2, hk, ho⟩ := c2_amended_pipeline_merge
    ⟨[("m", [("post", ["f"])])], [("m.f", ["__A", "__B", "__C"])]⟩
    (fun n => .next (.str ("v" ++ n))) (fun _ => .ok []) "T"
    ⟨"POST", "m", "f", [("x", .num 1), ("__B", .str "body")]⟩
    [("post", ["f"])] ["f"] ["__A", "__B", "__C"] (fun n => .str ("v" ++ n))
    rfl rfl rfl rfl (fun n _ => rfl)
  refine ⟨h1, ?_, ho "__B" (by decide) (by decide)⟩
  rw [h2]
  exact rfl

/-- C8 witness: a concrete request whose handler always throws. -/
theorem c8_handler_exception_witness :
    (mw ⟨[("m", [("post", ["f"])])], [("m.f", ["__A"])]⟩
      (fun n => .next (.str n)) (fun _ => .threw) "T"
      ⟨"POST", "m", "f", [("x", .num 1)]⟩).responses =
      [⟨false, .num 400, .obj [], "T", none,
        some (.str "f failed to execute")⟩] := by
  exact c8_handler_exception ⟨[("m", [("post", ["f"])])], [("m.f", ["__A"])]⟩
    (fun n => .next (.str n)) (fun _ => .threw) "T" ⟨"POST", "m", "f", [("x", .num 1)]⟩
    [("post", ["f"])] ["f"] ["__A"] (fun n => .str n)
    rfl rfl rfl rfl (fun n _ => rfl) (fun _ => rfl)

/-- C4: if any manager's exposure list contains a declaration whose method
name does not exist as a callable on that module, route-table construction
never succeeds — the build fails fast with a thrown error instead of
registering the route or ignoring the declaration.  (`getParamNames` is
absent from the sources and modelled from spec 4.1: introspecting a
missing method is a build-time configuration error.) -/
theorem c4_missing_method_fails (managers : List Manager) (repo : List String)
    (m : Manager) (defs : List String) (d : String)
    (hm : m ∈ managers) (hexp : m.httpExposed = some defs) (hd : d ∈ defs)
    (hmissing : assocFind m.methodParams (parseDef d).2 = none) :
    ∀ st, buildRoutes managers repo ≠ .ok st := by
  intro st hok
  simp only [buildRoutes] at hok
  obtain ⟨s1, s2, hpm⟩ := exFold_ok_mem _ managers _ st hok m hm
  simp only [processManager, hexp] at hpm
  obtain ⟨t1, t2, hpd⟩ := exFold_ok_mem _ defs _ s2 hpm d hd
  obtain ⟨pstr, stMid, hfind, _, _⟩ :=
    processDef_ok_elim repo m.name m.methodParams t1 t2 d hpd
  rw [hmissing] at hfind
  cases hfind

/-- C4 witness: a module exposing `post=zap` without a `zap` method never
builds. -/
theorem c4_missing_method_fails_witness :
    buildRoutes [⟨"m", some ["post=zap"], []⟩] [] ≠
      .ok ⟨[("m", [("post", ["zap"])])], []⟩ :=
  c4_missing_method_fails [⟨"m", some ["post=zap"], []⟩] []
    ⟨"m", some ["post=zap"], []⟩ ["post=zap"] "post=zap"
    (by simp) rfl (by simp) rfl ⟨[("m", [("post", ["zap"])])], []⟩

/-- C6 counterexample: a module exposing the same method under two verbs
(`get=x` and `post=x`, method `x` with parameters `a, __t`) builds a stack
`[__t, __t]` under `m.x` — not the method's marker-parameter sequence
`[__t]`. -/
theorem c6_counterexample_duplicate_exposure :
    buildRoutes [⟨"m", some ["get=x", "post=x"], [("x", "a, __t")]⟩] ["__t"] =
      .ok ⟨[("m", [("get", ["x"]), ("post", ["x"])])], [("m.x", ["__t", "__t"])]⟩
    ∧ (["__t", "__t"] : List String) ≠
        (cleanParams "a, __t").filter (fun p => jsStartsWith p "__") :=
  ⟨rfl, by decide⟩

/-- The stack keys `moduleName.x` are injective in the method name: the
module-name prefix is fixed, so two declarations write the same stack
entry exactly when they name the same method. -/
theorem mwKey_inj (mn x y : String) (h : mwKey mn x = mwKey mn y) : x = y := by
  have hd : (mwKey mn x).data = (mwKey mn y).data := by rw [h]
  simp only [mwKey, String.data_append] at hd
  have hxy : x.data = y.data := List.append_cancel_left hd
  cases x with
  | mk xd =>
    cases y with
    | mk yd => exact congrArg String.mk hxy

/-- Folding the constructor's per-declaration pass over any declaration
list appends one copy of the method's marker-parameter sequence to the
stack entry `moduleName.name` per declaration targeting that key, and
leaves the entry alone when no declaration targets it. -/
theorem defs_content_replicate (repo : List String) (mn : String)
    (mp : List (String × String)) (name pstr : String)
    (hparams : assocFind mp name = some pstr)
    (hne : cleanParams pstr ≠ []) :
    ∀ (defs : List String) (s s2 : BuildSt),
      exFold (processDef repo mn mp) s defs = .ok s2 →
      assocFind s2.mwsStack (mwKey mn name) =
        (if (defs.filter (fun d => keyOfDef mn d == mwKey mn name)).length = 0
         then assocFind s.mwsStack (mwKey mn name)
         else some ((assocFind s.mwsStack (mwKey mn name)).getD []
           ++ List.flatten (List.replicate
               (defs.filter (fun d => keyOfDef mn d == mwKey mn name)).length
               ((cleanParams pstr).filter (fun p => jsStartsWith p "__"))))) := by
  intro defs
  induction defs with
  | nil => intro s s2 h; cases h; simp
  | cons d rest ih =>
    intro s s2 h
    simp only [exFold] at h
    cases hd : processDef repo mn mp s d with
    | error e => rw [hd] at h; cases h
    | ok s1 =>
      rw [hd] at h
      have hrest := ih s1 s2 h
      by_cases htgt : (keyOfDef mn d == mwKey mn name) = true
      · have hkeq : keyOfDef mn d = mwKey mn name := eq_of_beq htgt
        have hname2 : (parseDef d).2 = name := mwKey_inj mn _ _ hkeq
        have hc1 : assocFind s1.mwsStack (keyOfDef mn d) =
            some ((assocFind s.mwsStack (keyOfDef mn d)).getD []
              ++ (cleanParams pstr).filter (fun p => jsStartsWith p "__")) :=
          processDef_content repo mn mp s s1 d pstr
            (by rw [hname2]; exact hparams) hne hd
        rw [hkeq] at hc1
        rw [List.filter_cons, if_pos htgt, List.length_cons, hrest]
        by_cases hk : (rest.filter (fun d2 => keyOfDef mn d2 == mwKey mn name)).length = 0
        · rw [if_pos hk, hk, if_neg (Nat.succ_ne_zero 0), hc1]
          simp
        · rw [if_neg hk, if_neg (Nat.succ_ne_zero _), hc1]
          simp [List.replicate_succ, List.append_assoc]
      · have hne2 : keyOfDef mn d ≠ mwKey mn name := by
          intro hcc
          rw [hcc] at htgt
          simp at htgt
        have hfr : assocFind s1.mwsStack (mwKey mn name) =
            assocFind s.mwsStack (mwKey mn name) :=
          processDef_frame repo mn mp s s1 d (mwKey mn name) hne2 hd
        rw [List.filter_cons, if_neg htgt, hrest, hfr]

/-- C6 (amended): the middleware stack recorded under `moduleName.name` is
the concatenation of one copy of the method's cleaned `__`-marked
parameter names (in left-to-right order) per exposure declaration of the
module targeting that key — absent when no declaration targets it, and
exactly the marker sequence when exactly one does; parameters without the
marker are never added.  (Quantified over any number of targeting
declarations; only declarations of other modules are assumed not to
collide on the key.) -/
theorem c6_amended_stack_is_marker_params (managers : List Manager)
    (repo : List String) (st : BuildSt) (mpre mpost : List Manager) (m : Manager)
    (defs : List String) (name pstr : String)
    (hsplit : managers = mpre ++ m :: mpost)
    (hok : buildRoutes managers repo = .ok st)
    (hexp : m.httpExposed = some defs)
    (hothers : ∀ m2 ∈ mpre ++ mpost, ∀ defs2, m2.httpExposed = some defs2 →
      ∀ d ∈ defs2, keyOfDef m2.name d ≠ mwKey m.name name)
    (hparams : assocFind m.methodParams name = some pstr)
    (hne : cleanParams pstr ≠ []) :
    assocFind st.mwsStack (mwKey m.name name) =
      (if (defs.filter (fun d => keyOfDef m.name d == mwKey m.name name)).length = 0
       then none
       else some (List.flatten (List.replicate
           (defs.filter (fun d => keyOfDef m.name d == mwKey m.name name)).length
           ((cleanParams pstr).filter (fun p => jsStartsWith p "__"))))) := by
  subst hsplit
  simp only [buildRoutes] at hok
  rw [exFold_append] at hok
  cases h1 : exFold (processManager repo) ⟨[], []⟩ mpre with
  | error e => rw [h1] at hok; cases hok
  | ok s1 =>
    rw [h1] at hok
    simp only [exFold] at hok
    cases h2 : processManager repo s1 m with
    | error e => rw [h2] at hok; cases hok
    | ok s2 =>
      rw [h2] at hok
      have hfr1 : assocFind s1.mwsStack (mwKey m.name name) = none := by
        rw [managers_frame repo (mwKey m.name name) mpre ⟨[], []⟩ s1
          (fun m2 hm2 => hothers m2 (by simp [hm2])) h1]
        rfl
      simp only [processManager, hexp] at h2
      have hdc := defs_content_replicate repo m.name m.methodParams name pstr
        hparams hne defs
        { s1 with methodMatrix := setAssoc s1.methodMatrix m.name [] } s2 h2
      have hstInit : assocFind
          ({ s1 with methodMatrix := setAssoc s1.methodMatrix m.name [] } :
            BuildSt).mwsStack (mwKey m.name name) = none := hfr1
      have hfr4 : assocFind st.mwsStack (mwKey m.name name) =
          assocFind s2.mwsStack (mwKey m.name name) :=
        managers_frame repo (mwKey m.name name) mpost s2 st
          (fun m2 hm2 => hothers m2 (by simp [hm2])) hok
      rw [hfr4, hdc, hstInit]
      by_cases hk : (defs.filter
          (fun d => keyOfDef m.name d == mwKey m.name name)).length = 0
      · rw [if_pos hk, if_pos hk]
      · rw [if_neg hk, if_neg hk]
        simp

/-- C6 witness: a module exposed once under `get=x` with parameters
`a, __t` records exactly the stack `[__t]`; the same method exposed under
two verbs records two copies `[__t, __t]`. -/
theorem c6_amended_stack_is_marker_params_witness :
    assocFind ((⟨[("m", [("get", ["x"])])], [("m.x", ["__t"])]⟩ : BuildSt)).mwsStack
        (mwKey "m" "x") = some ["__t"]
    ∧ assocFind ((⟨[("m", [("get", ["x"]), ("post", ["x"])])],
          [("m.x", ["__t", "__t"])]⟩ : BuildSt)).mwsStack
        (mwKey "m" "x") = some ["__t", "__t"] := by
  constructor
  · exact c6_amended_stack_is_marker_params
      [⟨"m", some ["get=x"], [("x", "a, __t")]⟩] ["__t"]
      ⟨[("m", [("get", ["x"])])], [("m.x", ["__t"])]⟩
      [] [] ⟨"m", some ["get=x"], [("x", "a, __t")]⟩
      ["get=x"] "x" "a, __t"
      rfl rfl rfl (by intro m2 hm2; simp at hm2) rfl (by decide)
  · exact c6_amended_stack_is_marker_params
      [⟨"m", some ["get=x", "post=x"], [("x", "a, __t")]⟩] ["__t"]
      ⟨[("m", [("get", ["x"]), ("post", ["x"])])], [("m.x", ["__t", "__t"])]⟩
      [] [] ⟨"m", some ["get=x", "post=x"], [("x", "a, __t")]⟩
      ["get=x", "post=x"] "x" "a, __t"
      rfl rfl rfl (by intro m2 hm2; simp at hm2) rfl (by decide)

/-- C7: a `__`-marked parameter that is not in the middleware registry
makes route-table construction fail: a successful build has every marked
parameter of every exposed method registered, and when the first offending
marked parameter is hit, the thrown error names the missing middleware and
the offending `moduleName.methodName` route. -/
theorem c7_unknown_middleware (managers : List Manager) (repo : List String) :
    (∀ st, buildRoutes managers repo = .ok st →
      ∀ m ∈ managers, ∀ defs, m.httpExposed = some defs →
      ∀ d ∈ defs, ∀ pstr, assocFind m.methodParams (parseDef d).2 = some pstr →
      ∀ p ∈ cleanParams pstr, jsStartsWith p "__" = true → repo.contains p = true)
    ∧ (∀ (mn mm : String) (st : BuildSt) (pre : List String) (p : String)
        (post : List String),
        (∀ q ∈ pre, jsStartsWith q "__" = true → repo.contains q = true) →
        jsStartsWith p "__" = true → repo.contains p = false →
        processParams repo mn mm st (pre ++ p :: post) =
          .error ("Unable to find middleware " ++ p ++ " for " ++ mn ++ "." ++ mm)) := by
  constructor
  · intro st hok m hm defs hexp d hd pstr hfind p hp hmark
    simp only [buildRoutes] at hok
    obtain ⟨s1, s2, hpm⟩ := exFold_ok_mem _ managers _ st hok m hm
    simp only [processManager, hexp] at hpm
    obtain ⟨t1, t2, hpd⟩ := exFold_ok_mem _ defs _ s2 hpm d hd
    obtain ⟨pstr2, stMid, hfind2, _, hpp⟩ :=
      processDef_ok_elim repo m.name m.methodParams t1 t2 d hpd
    rw [hfind] at hfind2
    cases hfind2
    exact processParams_ok_markers repo m.name (parseDef d).2
      (cleanParams pstr) stMid t2 hpp p hp hmark
  · intro mn mm st pre p post hpre hmark hmiss
    exact processParams_error_message repo mn mm pre p post st hpre hmark hmiss

/-- C7 witness: building with `__ghost` unregistered fails with the error
naming `__ghost` and the route `m.f`; a successful build has its marked
parameter registered. -/
theorem c7_unknown_middleware_witness :
    processParams [] "m" "f" ⟨[], []⟩ ["a", "__ghost"] =
      .error "Unable to find middleware __ghost for m.f"
    ∧ (["__t"] : List String).contains "__t" = true := by
  constructor
  · exact (c7_unknown_middleware [] []).2 "m" "f" ⟨[], []⟩ ["a"] "__ghost" []
      (by intro q hq hmark; simp at hq; subst hq; cases hmark)
      (by decide) (by decide)
  · exact (c7_unknown_middleware [⟨"m", some ["get=x"], [("x", "a, __t")]⟩] ["__t"]).1
      ⟨[("m", [("get", ["x"])])], [("m.x", ["__t"])]⟩ rfl
      ⟨"m", some ["get=x"], [("x", "a, __t")]⟩ (by simp)
      ["get=x"] rfl "get=x" (by simp) "a, __t" rfl "__t" (by decide) (by decide)

/-- C9: route-table construction is deterministic and side-effect free:
two builds from the same managers and registry are equal, and serialize to
byte-identical text (the inputs, being values, are unchanged). -/
theorem c9_build_deterministic (managers : List Manager) (repo : List String)
    (b1 b2 : Except String BuildSt)
    (h1 : b1 = buildRoutes managers repo) (h2 : b2 = buildRoutes managers repo) :
    b1 = b2 ∧ b1.map serializeBuild = b2.map serializeBuild := by
  subst h1
  subst h2
  exact ⟨rfl, rfl⟩

/-- C9 witness: two concrete builds of the same module set coincide. -/
theorem c9_build_deterministic_witness :
    buildRoutes [⟨"m", some ["get=x"], [("x", "a, __t")]⟩] ["__t"] =
      buildRoutes [⟨"m", some ["get=x"], [("x", "a, __t")]⟩] ["__t"]
    ∧ (buildRoutes [⟨"m", some ["get=x"], [("x", "a, __t")]⟩] ["__t"]).map serializeBuild =
      (buildRoutes [⟨"m", some ["get=x"], [("x", "a, __t")]⟩] ["__t"]).map serializeBuild :=
  c9_build_deterministic [⟨"m", some ["get=x"], [("x", "a, __t")]⟩] ["__t"]
    (buildRoutes [⟨"m", some ["get=x"], [("x", "a, __t")]⟩] ["__t"])
    (buildRoutes [⟨"m", some ["get=x"], [("x", "a, __t")]⟩] ["__t"]) rfl rfl

end SchoolApi
